import Mathlib

/-!
Shallow embedding of `src/compress.py` (rayx-gen): a directory watcher that
recompresses newly created HDF5 containers in place via an atomic swap.

Python strings are Lean `String`s; `os.path` operations are modelled on the
character lists of POSIX paths; HDF5 containers are the list of nodes that
h5py's `visititems` enumerates; the filesystem is an association list from
paths to container contents; fallible library calls (file sizes, opening,
writing, renaming) are driven by explicit failure oracles so that every
exception path of the Python code is represented.
-/

namespace RayxCompress

/-- Python `str.startswith`: `s` starts with `pre`. -/
def pyStartsWith (s pre : String) : Bool := pre.data.isPrefixOf s.data

/-- Python `str.endswith`: `s` ends with `suf`. -/
def pyEndsWith (s suf : String) : Bool := suf.data.isSuffixOf s.data

/-- Core of `os.path.split` on the character list of a POSIX path: the tail is
everything after the last slash; the head is everything up to and including the
last slash, with trailing slashes stripped unless the head consists only of
slashes (CPython `posixpath.split`). -/
def splitChars (cs : List Char) : List Char × List Char :=
  let r := cs.reverse
  let tailR := r.takeWhile (fun c => c != '/')
  let headR := r.dropWhile (fun c => c != '/')
  let head := if headR.all (fun c => c == '/') then headR.reverse
              else (headR.dropWhile (fun c => c == '/')).reverse
  (head, tailR.reverse)

/-- Python `os.path.split`. -/
def splitPath (p : String) : String × String :=
  ((splitChars p.data).1.asString, (splitChars p.data).2.asString)

/-- Python `os.path.basename`, as used on `event.src_path` in `on_created`. -/
def basename (p : String) : String := (splitPath p).2

/-- Python `os.path.join` for one extra component (CPython `posixpath.join`):
an absolute second component replaces the first; otherwise a slash separator is
inserted unless the first component is empty or already ends with a slash. -/
def joinChars (a b : List Char) : List Char :=
  if b.head? = some '/' then b
  else if a.isEmpty || a.getLast? == some '/' then a ++ b
  else a ++ '/' :: b

/-- Python `os.path.join` on strings. -/
def joinPath (a b : String) : String := (joinChars a.data b.data).asString

/-- Name generated by `tempfile.mkstemp(suffix=".h5", dir=dirname)`: CPython's
default name is `gettempprefix()` (the string "tmp") followed by random
characters drawn from lowercase letters, digits and underscore (never a slash),
followed by the suffix. `rand` stands for the random part. -/
def mkstempName (rand : String) : String := "tmp" ++ rand ++ ".h5"

/-- Filename filter of `H5Handler.on_created` (compress.py lines 53-57):
directory events are ignored, then the basename must end with ".h5" and must
not start with "tmp". -/
def candidateFilter (is_directory : Bool) (src_path : String) : Bool :=
  if is_directory then false
  else
    let filename := basename src_path
    if !(pyEndsWith filename ".h5") || pyStartsWith filename "tmp" then false
    else true

/-- An HDF5 dataset as (re)created by `dst.create_dataset(name, data=data,
**kwargs)`: the full in-memory payload `obj[()]` plus the storage encoding
settings. -/
structure Dataset where
  data : List Nat
  compression : Option String
  compression_opts : Option Nat
deriving DecidableEq

/-- A node visited by `src.visititems(_recurse)`: either a group or a dataset. -/
inductive H5Object where
  | group : H5Object
  | dataset : Dataset → H5Object
deriving DecidableEq

/-- An HDF5 container: the nodes `visititems` enumerates, each paired with its
path name relative to the root group. -/
abbrev H5File := List (String × H5Object)

/-- Body of the `_recurse` closure in `compress_and_replace` (compress.py lines
36-44): a dataset is recreated with its full data and the configured
compression (gzip additionally receives `compression_opts`); any other object
is recreated as an empty group. -/
def recurseNode (compression : Option String) (compression_level : Nat) :
    String × H5Object → String × H5Object
  | (name, .group) => (name, .group)
  | (name, .dataset d) =>
      (name, .dataset { data := d.data
                        compression := compression
                        compression_opts :=
                          if compression == some "gzip" then some compression_level
                          else none })

/-- Effect of `src.visititems(_recurse)` writing into `dst`: every node of the
source container is recreated in the destination. -/
def recompressFile (compression : Option String) (compression_level : Nat)
    (f : H5File) : H5File :=
  f.map (recurseNode compression compression_level)

/-- Logical (encoding-independent) view of a container node: its kind and, for
datasets, the payload bytes — the tree the spec calls "group names, dataset
names, dataset byte contents". -/
inductive LogicalNode where
  | group : LogicalNode
  | dataset : List Nat → LogicalNode
deriving DecidableEq

/-- Logical tree of a container: names with kinds and payloads, storage
encoding erased. -/
def logicalView (f : H5File) : List (String × LogicalNode) :=
  f.map fun e =>
    (e.1, match e.2 with
          | .group => LogicalNode.group
          | .dataset d => LogicalNode.dataset d.data)

/-- Filesystem model: an association list from paths to container contents. -/
abbrev FS := List (String × H5File)

/-- Look up the container stored at path `p`. -/
def lookupFS (fs : FS) (p : String) : Option H5File :=
  match fs with
  | [] => none
  | e :: rest => if e.1 = p then some e.2 else lookupFS rest p

/-- Remove the entry at path `p` (used by the rename step, which unlinks the
source of the move). -/
def removeFS (fs : FS) (p : String) : FS :=
  match fs with
  | [] => []
  | e :: rest => if e.1 = p then removeFS rest p else e :: removeFS rest p

/-- Store container `f` at path `p`, replacing any previous entry. -/
def setFS (fs : FS) (p : String) (f : H5File) : FS :=
  (p, f) :: removeFS fs p

/-- Exceptions that `compress_and_replace` can raise, by failing step:
`tempfile.mkstemp`, `h5py.File(src_path, 'r')`, writing datasets into the
temp file, and the final `shutil.move`. -/
inductive CompressError where
  | mkstempError : CompressError
  | readError : CompressError
  | writeError : CompressError
  | publishError : CompressError
deriving DecidableEq

/-- Failure oracle for one run of `compress_and_replace`: which of its fallible
steps raises. -/
structure FailureModel where
  mkstempFails : Bool
  openReadFails : Bool
  writeFails : Bool
  renameFails : Bool
deriving DecidableEq

/-- Run in which every step succeeds. -/
def noFailures : FailureModel := ⟨false, false, false, false⟩

/-- Result of one run of `compress_and_replace`: the filesystem afterwards and
the exception raised, if any. -/
structure CompressResult where
  fs : FS
  error : Option CompressError
deriving DecidableEq

/-- Path of the temp file `tempfile.mkstemp(suffix=".h5", dir=dirname)`
creates, where `dirname, fname = os.path.split(src_path)` (compress.py lines
30-32): it lives in the directory part of `src_path`. -/
def tmpPathOf (src_path rand : String) : String :=
  joinPath (splitPath src_path).1 (mkstempName rand)

/-- `H5Handler.compress_and_replace` (compress.py lines 28-50) as a transformer
of the filesystem model. Steps, in source order: `mkstemp` exclusively creates
an empty temp file next to the original; the source is opened read-only and the
recompressed copy of its tree is written to the temp path only; finally
`shutil.move(tmp_path, src_path)` atomically replaces the original. Each step
either succeeds or raises, per the failure oracle; a missing source also makes
the read-open raise. No step ever deletes the temp file on failure. -/
def compress_and_replace (compression : Option String) (compression_level : Nat)
    (src_path rand : String) (fm : FailureModel) (fs : FS) : CompressResult :=
  let tmp_path := tmpPathOf src_path rand
  if fm.mkstempFails then { fs := fs, error := some CompressError.mkstempError }
  else
    let fs1 := setFS fs tmp_path []
    match lookupFS fs src_path with
    | none => { fs := fs1, error := some CompressError.readError }
    | some srcFile =>
      if fm.openReadFails then { fs := fs1, error := some CompressError.readError }
      else if fm.writeFails then { fs := fs1, error := some CompressError.writeError }
      else
        let dstFile := recompressFile compression compression_level srcFile
        let fs2 := setFS fs1 tmp_path dstFile
        if fm.renameFails then { fs := fs2, error := some CompressError.publishError }
        else { fs := setFS (removeFS fs2 tmp_path) src_path dstFile, error := none }

/-- `H5Handler.is_stable` (compress.py lines 21-26): read the size, sleep,
read the size again, compare. `sizes k` is the value the k-th call of
`os.path.getsize` on this file returns, `none` meaning the call raises (file
vanished); the n-th `is_stable` call performs reads `2*n` and `2*n+1`.
`none` as result means the exception propagates out of `is_stable`. -/
def is_stable (sizes : Nat → Option Nat) (trial : Nat) : Option Bool :=
  match sizes (2 * trial) with
  | none => none
  | some size1 =>
    match sizes (2 * trial + 1) with
    | none => none
    | some size2 => some (size1 == size2)

/-- Result of the `while not self.is_stable(filepath)` loop: it ends with a
stable probe, or an exception from a size read, or (with bounded fuel in the
model) it is still running. -/
inductive ProbeOutcome where
  | stable : Nat → ProbeOutcome
  | raised : Nat → ProbeOutcome
  | exhausted : ProbeOutcome
deriving DecidableEq

/-- The stability-wait loop of `on_created` (compress.py lines 62-64), with
explicit fuel standing for the unbounded iteration of the Python `while`. -/
def waitUntilStable (sizes : Nat → Option Nat) : Nat → Nat → ProbeOutcome
  | 0, _ => ProbeOutcome.exhausted
  | fuel + 1, trial =>
    match is_stable sizes trial with
    | none => ProbeOutcome.raised trial
    | some true => ProbeOutcome.stable trial
    | some false => waitUntilStable sizes fuel (trial + 1)

/-- How one `on_created` call ends: event filtered out; still waiting for
stability (fuel exhausted in the model); a size-read exception escaped the
handler (the `while` loop is outside the `try`); compression ran after the
probe succeeded at the given trial and either completed or raised and was
caught by the `except` clause. -/
inductive JobOutcome where
  | ignored : JobOutcome
  | stuck : JobOutcome
  | probeRaised : Nat → JobOutcome
  | compressed : Nat → JobOutcome
  | failed : Nat → JobOutcome
deriving DecidableEq

/-- An outcome is recovered at job scope when `on_created` returns normally
(including the `except` branch that logs a compression failure); it is not
when an exception escapes the handler. -/
def recoveredAtJobScope : JobOutcome → Bool
  | JobOutcome.probeRaised _ => false
  | _ => true

/-- Result of one `on_created` call: its outcome and the value of the shared
`last_event_time` cell afterwards. -/
structure OnCreatedResult where
  outcome : JobOutcome
  last_event_time : Int
deriving DecidableEq

/-- `H5Handler.on_created` (compress.py lines 52-69): filter the event; on
acceptance store the current time in the shared cell, loop on `is_stable`
(outside any `try`), then run `compress_and_replace` inside `try/except`.
`now` is the value `time.time()` returns at the mark-event line;
`compressRaises` says whether `compress_and_replace` raises on this file. -/
def on_created (is_directory : Bool) (src_path : String) (now last_event_time : Int)
    (sizes : Nat → Option Nat) (fuel : Nat) (compressRaises : Bool) : OnCreatedResult :=
  if candidateFilter is_directory src_path then
    match waitUntilStable sizes fuel 0 with
    | ProbeOutcome.exhausted => { outcome := JobOutcome.stuck, last_event_time := now }
    | ProbeOutcome.raised t => { outcome := JobOutcome.probeRaised t, last_event_time := now }
    | ProbeOutcome.stable t =>
      if compressRaises then { outcome := JobOutcome.failed t, last_event_time := now }
      else { outcome := JobOutcome.compressed t, last_event_time := now }
  else { outcome := JobOutcome.ignored, last_event_time := last_event_time }

/-- Idle test of the watch loop in `main` (compress.py lines 131-133):
`idle = time.time() - last_event_time[0]; if idle > args.idle_timeout: break`.
Times are modelled as integers. -/
def idleCheck (now last_event_time idle_timeout : Int) : Bool :=
  now - last_event_time > idle_timeout

/-- The `while True` watch loop of `main`: at each tick it evaluates the idle
test and breaks (returning the shutdown tick) at the first tick where it holds.
`lastOf` gives the value of the shared `last_event_time` cell at each tick. -/
def watchLoop (idle_timeout : Int) (lastOf : Int → Int) : List Int → Option Int
  | [] => none
  | now :: rest =>
    if idleCheck now (lastOf now) idle_timeout then some now
    else watchLoop idle_timeout lastOf rest

/-- Observable step of the `--once` batch loop: a stability poll (never
performed by this loop), an invocation of `compress_and_replace`, or the
logging of a caught per-file exception. -/
inductive BatchAction where
  | probed : String → BatchAction
  | attempted : String → BatchAction
  | errorLogged : String → BatchAction
deriving DecidableEq

/-- Body of the batch loop in `main` (compress.py lines 112-122) for one walk
entry: files failing the name filter are skipped; otherwise
`compress_and_replace` is invoked on `os.path.join(root, fname)` inside
`try/except`, logging an error if it raises. `fails p` says whether the
invocation on `p` raises. -/
def batchStep (fails : String → Bool) (root fname : String) : List BatchAction :=
  if !(pyEndsWith fname ".h5") || pyStartsWith fname "tmp" then []
  else
    let path := joinPath root fname
    if fails path then [BatchAction.attempted path, BatchAction.errorLogged path]
    else [BatchAction.attempted path]

/-- The whole `--once` batch run over the `(root, fname)` pairs that
`os.walk` yields. -/
def batchOnce (fails : String → Bool) (walk : List (String × String)) : List BatchAction :=
  walk.flatMap fun rf => batchStep fails rf.1 rf.2

/-- Paths on which `compress_and_replace` was invoked during a batch run. -/
def attemptedOf : BatchAction → Option String
  | BatchAction.attempted p => some p
  | _ => none

/-- List of attempted paths of a batch trace. -/
def attemptedPaths (l : List BatchAction) : List String := l.filterMap attemptedOf

/-! Helper lemmas about lists and the path model. -/

lemma isPrefixOf_append_left (l r : List Char) : l.isPrefixOf (l ++ r) = true := by
  induction l with
  | nil => simp [List.isPrefixOf]
  | cons a as ih => simp [List.isPrefixOf, ih]

lemma isSuffixOf_append_right (l r : List Char) : r.isSuffixOf (l ++ r) = true := by
  simp only [List.isSuffixOf, List.reverse_append]
  exact isPrefixOf_append_left r.reverse l.reverse

lemma takeWhile_append_all {p : Char → Bool} {l₁ l₂ : List Char}
    (h : ∀ a ∈ l₁, p a = true) :
    (l₁ ++ l₂).takeWhile p = l₁ ++ l₂.takeWhile p := by
  induction l₁ with
  | nil => simp
  | cons a as ih =>
    have ha : p a = true := h a (by simp)
    simp [List.takeWhile_cons, ha, ih fun b hb => h b (by simp [hb])]

lemma dropWhile_append_all {p : Char → Bool} {l₁ l₂ : List Char}
    (h : ∀ a ∈ l₁, p a = true) :
    (l₁ ++ l₂).dropWhile p = l₂.dropWhile p := by
  induction l₁ with
  | nil => simp
  | cons a as ih =>
    have ha : p a = true := h a (by simp)
    simp [List.dropWhile_cons, ha, ih fun b hb => h b (by simp [hb])]

/-- Directory strings that `splitChars` can produce as head: empty, all
slashes, or with no trailing slash. -/
def normalizedDir (d : List Char) : Prop :=
  d = [] ∨ (∀ c ∈ d, c = '/') ∨ d.getLast? ≠ some '/'

lemma splitChars_head_normalized (cs : List Char) : normalizedDir (splitChars cs).1 := by
  unfold splitChars normalizedDir
  set r := cs.reverse with hr
  by_cases hall : (r.dropWhile fun c => c != '/').all (fun c => c == '/') = true
  · refine Or.inr (Or.inl ?_)
    simp only [hall, if_true]
    intro c hc
    have := List.all_eq_true.mp hall c (List.mem_reverse.mp hc)
    exact eq_of_beq this
  · simp only [hall, if_false, Bool.false_eq_true]
    rcases hd : (r.dropWhile fun c => c != '/').dropWhile (fun c => c == '/') with _ | ⟨a, t⟩
    · exact Or.inl (by simp [hd])
    · refine Or.inr (Or.inr ?_)
      have hna : (a == '/') = false := by
        have := List.head?_dropWhile_not (fun c => c == '/') (r.dropWhile fun c => c != '/')
        rw [hd] at this
        simpa using this
      rw [List.getLast?_reverse]
      simp only [List.head?_cons]
      intro hEq
      have ha : a = '/' := by simpa using hEq
      rw [ha] at hna
      simp at hna

lemma splitChars_noSlash (name : List Char) (hn : ∀ c ∈ name, c ≠ '/') :
    splitChars name = ([], name) := by
  unfold splitChars
  have hall : ∀ c ∈ name.reverse, (fun c => c != '/') c = true := by
    intro c hc
    simpa using hn c (List.mem_reverse.mp hc)
  have ht : name.reverse.takeWhile (fun c => c != '/') = name.reverse := by
    have h2 := @takeWhile_append_all (fun c => c != '/') name.reverse [] hall
    simpa using h2
  have hd : name.reverse.dropWhile (fun c => c != '/') = [] := by
    have h2 := @dropWhile_append_all (fun c => c != '/') name.reverse [] hall
    simpa using h2
  simp [ht, hd]

lemma splitChars_joinChars (d name : List Char) (hd : normalizedDir d)
    (hn : ∀ c ∈ name, c ≠ '/') (hne : name ≠ []) :
    splitChars (joinChars d name) = (d, name) := by
  have hhead : name.head? ≠ some '/' := by
    rcases name with _ | ⟨a, t⟩
    · simp
    · simpa using hn a (by simp)
  have hallrev : ∀ c ∈ name.reverse, (fun c => c != '/') c = true := by
    intro c hc
    simpa using hn c (List.mem_reverse.mp hc)
  rcases eq_or_ne d [] with rfl | hdne
  · rw [joinChars]
    simp only [hhead, if_neg, List.isEmpty_nil, Bool.true_or, if_true, List.nil_append]
    exact splitChars_noSlash name hn
  · by_cases hlast : d.getLast? = some '/'
    · -- d ends with a slash: join appends directly; d must be all slashes
      have hdall : ∀ c ∈ d, c = '/' := by
        rcases hd with h | h | h
        · exact absurd h hdne
        · exact h
        · exact absurd hlast h
      have hjoin : joinChars d name = d ++ name := by
        rw [joinChars]
        simp [hhead, hlast]
      rw [hjoin]
      unfold splitChars
      rw [List.reverse_append]
      have hdrevcons : ∃ t, d.reverse = '/' :: t := by
        rcases hrev : d.reverse with _ | ⟨a, t⟩
        · exact absurd (by simpa using hrev) hdne
        · have : d.reverse.head? = some '/' := by rw [List.head?_reverse]; exact hlast
          rw [hrev] at this
          simp only [List.head?_cons, Option.some_inj] at this
          exact ⟨t, by simp [hrev, this]⟩
      obtain ⟨t, hdrev⟩ := hdrevcons
      have htake : (name.reverse ++ d.reverse).takeWhile (fun c => c != '/') = name.reverse := by
        rw [takeWhile_append_all hallrev, hdrev]
        simp [List.takeWhile_cons]
      have hdrop : (name.reverse ++ d.reverse).dropWhile (fun c => c != '/') = d.reverse := by
        rw [dropWhile_append_all hallrev, hdrev]
        simp [List.dropWhile_cons]
      have hall2 : d.reverse.all (fun c => c == '/') = true := by
        rw [List.all_eq_true]
        intro c hc
        simpa using hdall c (List.mem_reverse.mp hc)
      simp [htake, hdrop, hall2]
    · -- d does not end with a slash: join inserts a separator
      have hjoin : joinChars d name = d ++ '/' :: name := by
        rw [joinChars]
        have h1 : d.isEmpty = false := by simpa [List.isEmpty_iff] using hdne
        have h2 : (d.getLast? == some '/') = false := by simpa using hlast
        simp [hhead, h1, h2]
      rw [hjoin]
      unfold splitChars
      have hrw : (d ++ '/' :: name).reverse = name.reverse ++ '/' :: d.reverse := by
        simp
      rw [hrw]
      have htake : (name.reverse ++ '/' :: d.reverse).takeWhile (fun c => c != '/')
          = name.reverse := by
        rw [takeWhile_append_all hallrev]
        simp [List.takeWhile_cons]
      have hdrop : (name.reverse ++ '/' :: d.reverse).dropWhile (fun c => c != '/')
          = '/' :: d.reverse := by
        rw [dropWhile_append_all hallrev]
        simp [List.dropWhile_cons]
      obtain ⟨a, t, hdrev⟩ : ∃ a t, d.reverse = a :: t := by
        rcases hrev : d.reverse with _ | ⟨a, t⟩
        · exact absurd (by simpa using hrev) hdne
        · exact ⟨a, t, rfl⟩
      have hna : (a == '/') = false := by
        have : d.reverse.head? = d.getLast? := List.head?_reverse d
        rw [hdrev] at this
        simp only [List.head?_cons] at this
        have := this.symm
        by_contra hcontra
        simp only [Bool.not_eq_false, beq_iff_eq] at hcontra
        exact hlast (by rw [this, hcontra])
      have hall2 : ('/' :: d.reverse).all (fun c => c == '/') = false := by
        rw [hdrev]
        simp only [List.all_cons, Bool.and_eq_false_iff]
        right
        simp [hna]
      have hdrop2 : ('/' :: d.reverse).dropWhile (fun c => c == '/') = d.reverse := by
        rw [hdrev]
        simp [List.dropWhile_cons, hna]
      simp [htake, hdrop, hall2, hdrop2]

lemma lookupFS_removeFS_ne (fs : FS) (p q : String) (h : q ≠ p) :
    lookupFS (removeFS fs p) q = lookupFS fs q := by
  induction fs with
  | nil => rfl
  | cons e rest ih =>
    by_cases he : e.1 = p
    · simp [removeFS, lookupFS, he, Ne.symm h, ih]
    · by_cases heq : e.1 = q
      · simp [removeFS, lookupFS, he, heq, h]
      · simp [removeFS, lookupFS, he, heq, ih]

lemma lookupFS_setFS_self (fs : FS) (p : String) (f : H5File) :
    lookupFS (setFS fs p f) p = some f := by
  simp [setFS, lookupFS]

lemma lookupFS_setFS_ne (fs : FS) (p q : String) (f : H5File) (h : q ≠ p) :
    lookupFS (setFS fs p f) q = lookupFS fs q := by
  rw [setFS, lookupFS, if_neg (fun he => h he.symm)]
  exact lookupFS_removeFS_ne fs p q h

lemma logicalView_recompressFile (compression : Option String) (compression_level : Nat)
    (f : H5File) :
    logicalView (recompressFile compression compression_level f) = logicalView f := by
  unfold logicalView recompressFile
  rw [List.map_map]
  apply List.map_congr_left
  intro e _
  rcases e with ⟨n, o⟩
  cases o <;> rfl

lemma candidateFilter_eq_true_iff (is_directory : Bool) (src_path : String) :
    candidateFilter is_directory src_path = true ↔
      is_directory = false ∧ pyEndsWith (basename src_path) ".h5" = true ∧
        pyStartsWith (basename src_path) "tmp" = false := by
  cases is_directory with
  | true => simp [candidateFilter]
  | false =>
    cases hE : pyEndsWith (basename src_path) ".h5" <;>
      cases hS : pyStartsWith (basename src_path) "tmp" <;>
        simp [candidateFilter, hE, hS]

lemma waitUntilStable_stable_spec (sizes : Nat → Option Nat) (fuel : Nat) :
    ∀ start t, waitUntilStable sizes fuel start = ProbeOutcome.stable t →
      start ≤ t ∧ is_stable sizes t = some true ∧
        ∀ m, start ≤ m → m < t → is_stable sizes m = some false := by
  induction fuel with
  | zero => intro start t h; simp [waitUntilStable] at h
  | succ n ih =>
    intro start t h
    rw [waitUntilStable] at h
    cases hs : is_stable sizes start with
    | none => rw [hs] at h; cases h
    | some b =>
      cases b with
      | true =>
        rw [hs] at h
        cases h
        exact ⟨le_refl _, hs, fun m hm1 hm2 => absurd hm2 (by omega)⟩
      | false =>
        rw [hs] at h
        obtain ⟨h1, h2, h3⟩ := ih (start + 1) t h
        refine ⟨by omega, h2, ?_⟩
        intro m hm1 hm2
        rcases Nat.eq_or_lt_of_le hm1 with hEq | hlt
        · rw [← hEq]; exact hs
        · exact h3 m (by omega) hm2

lemma attemptedPaths_batchOnce_indep (fails : String → Bool) (walk : List (String × String)) :
    attemptedPaths (batchOnce fails walk) =
      attemptedPaths (batchOnce (fun _ => false) walk) := by
  induction walk with
  | nil => rfl
  | cons rf rest ih =>
    simp only [batchOnce, List.flatMap_cons, attemptedPaths, List.filterMap_append] at *
    rw [ih]
    congr 1
    rw [batchStep, batchStep]
    by_cases hf : (!pyEndsWith rf.2 ".h5" || pyStartsWith rf.2 "tmp") = true
    · rw [if_pos hf, if_pos hf]
    · rw [if_neg hf, if_neg hf]
      by_cases hfa : fails (joinPath rf.1 rf.2)
      · simp [hfa, attemptedOf]
      · simp [hfa]

lemma probed_not_mem_batchStep (fails : String → Bool) (root fname p : String) :
    BatchAction.probed p ∉ batchStep fails root fname := by
  rw [batchStep]
  by_cases hf : (!pyEndsWith fname ".h5" || pyStartsWith fname "tmp") = true
  · simp [hf]
  · rw [if_neg hf]
    by_cases hfa : fails (joinPath root fname) <;> simp [hfa]

/-! Claim theorems. -/

/-- C1: for a run of `compress_and_replace` in which every step succeeds, the
container written back at the original path has a logical tree identical to the
original's — the same names, kinds and bit-identical dataset payloads; only the
stored compression/encoding fields change. -/
theorem C1_recompress_preserves_logical_tree
    (compression : Option String) (compression_level : Nat)
    (src_path rand : String) (fs : FS) (f : H5File)
    (hsrc : lookupFS fs src_path = some f)
    (hfresh : lookupFS fs (tmpPathOf src_path rand) = none) :
    (compress_and_replace compression compression_level src_path rand noFailures fs).error
      = none ∧
    lookupFS (compress_and_replace compression compression_level src_path rand noFailures fs).fs
      src_path = some (recompressFile compression compression_level f) ∧
    logicalView (recompressFile compression compression_level f) = logicalView f := by
  have hne : tmpPathOf src_path rand ≠ src_path := by
    intro hEq
    rw [hEq, hsrc] at hfresh
    cases hfresh
  simp only [compress_and_replace, noFailures, hsrc, Bool.false_eq_true, if_false]
  exact ⟨trivial, by rw [lookupFS_setFS_self], logicalView_recompressFile _ _ _⟩

/-- C1 witness: a concrete successful run on a two-node container. -/
theorem C1_witness :
    (compress_and_replace (some "gzip") 4 "d/a.h5" "x1" noFailures
        [("d/a.h5", [("g", H5Object.group),
                     ("g/d", H5Object.dataset ⟨[1, 2, 3], none, none⟩)])]).error = none :=
  (C1_recompress_preserves_logical_tree (some "gzip") 4 "d/a.h5" "x1"
    [("d/a.h5", [("g", H5Object.group),
                 ("g/d", H5Object.dataset ⟨[1, 2, 3], none, none⟩)])]
    [("g", H5Object.group), ("g/d", H5Object.dataset ⟨[1, 2, 3], none, none⟩)]
    (by decide) (by decide)).1

/-- C3: a creation event is accepted (its outcome is not `ignored`, the shared
timestamp is set to the current time) if and only if the event is not a
directory event, the basename ends with ".h5" and the basename does not start
with "tmp"; a rejected event leaves the timestamp unchanged. -/
theorem C3_candidate_filter_iff (is_directory : Bool) (src_path : String)
    (now last_event_time : Int) (sizes : Nat → Option Nat) (fuel : Nat)
    (compressRaises : Bool) :
    ((on_created is_directory src_path now last_event_time sizes fuel compressRaises).outcome
        ≠ JobOutcome.ignored ↔
      is_directory = false ∧ pyEndsWith (basename src_path) ".h5" = true ∧
        pyStartsWith (basename src_path) "tmp" = false) ∧
    (on_created is_directory src_path now last_event_time sizes fuel compressRaises).last_event_time
      = (if candidateFilter is_directory src_path then now else last_event_time) := by
  rw [← candidateFilter_eq_true_iff]
  cases hf : candidateFilter is_directory src_path with
  | false => simp [on_created, hf]
  | true =>
    simp only [on_created, hf, if_true]
    cases hw : waitUntilStable sizes fuel 0 <;>
      cases compressRaises <;> simp [hw]

/-- C3 witness: a plain ".h5" file event is accepted. -/
theorem C3_witness :
    (on_created false "d/run.h5" 7 0 (fun k => if k < 2 then some k else some 5) 3
        false).outcome ≠ JobOutcome.ignored :=
  (C3_candidate_filter_iff false "d/run.h5" 7 0 (fun k => if k < 2 then some k else some 5) 3
    false).1.mpr (by decide)

/-- C4: the temp file of `compress_and_replace` lives in the directory of the
target path, its basename is the `mkstemp` name "tmp…​.h5", that name starts
with the temp prefix and carries the ".h5" extension, and the watcher's own
filter rejects it. -/
theorem C4_temp_name_rejected_by_filter (src_path rand : String)
    (hr : ∀ c ∈ rand.data, c ≠ '/') :
    (splitPath (tmpPathOf src_path rand)).1 = (splitPath src_path).1 ∧
    basename (tmpPathOf src_path rand) = mkstempName rand ∧
    pyStartsWith (mkstempName rand) "tmp" = true ∧
    pyEndsWith (mkstempName rand) ".h5" = true ∧
    candidateFilter false (tmpPathOf src_path rand) = false := by
  have hdata : (mkstempName rand).data = 't' :: 'm' :: 'p' :: (rand.data ++ ['.', 'h', '5']) := by
    rw [mkstempName, String.data_append, String.data_append, List.append_assoc]
    rfl
  have hnoSlash : ∀ c ∈ (mkstempName rand).data, c ≠ '/' := by
    intro c hc
    rw [hdata] at hc
    simp only [List.mem_cons, List.mem_append] at hc
    rcases hc with rfl | rfl | rfl | hc | hc
    · decide
    · decide
    · decide
    · exact hr c hc
    · simp only [List.mem_cons, List.not_mem_nil, or_false] at hc
      rcases hc with rfl | rfl | rfl <;> decide
  have hnonempty : (mkstempName rand).data ≠ [] := by
    rw [hdata]
    simp
  have hsplit : splitChars (joinChars (splitChars src_path.data).1 (mkstempName rand).data)
      = ((splitChars src_path.data).1, (mkstempName rand).data) :=
    splitChars_joinChars _ _ (splitChars_head_normalized _) hnoSlash hnonempty
  have h1 : (splitPath (tmpPathOf src_path rand)).1 = (splitPath src_path).1 := by
    show (splitChars (joinChars (splitChars src_path.data).1 (mkstempName rand).data)).1.asString
        = (splitChars src_path.data).1.asString
    rw [hsplit]
  have h2 : basename (tmpPathOf src_path rand) = mkstempName rand := by
    show (splitChars (joinChars (splitChars src_path.data).1 (mkstempName rand).data)).2.asString
        = mkstempName rand
    rw [hsplit]
    rfl
  have h3 : pyStartsWith (mkstempName rand) "tmp" = true := by
    rw [pyStartsWith, mkstempName, String.data_append, String.data_append, List.append_assoc]
    exact isPrefixOf_append_left _ _
  have h4 : pyEndsWith (mkstempName rand) ".h5" = true := by
    rw [pyEndsWith, mkstempName, String.data_append]
    exact isSuffixOf_append_right _ _
  have h5 : candidateFilter false (tmpPathOf src_path rand) = false := by
    simp [candidateFilter, h2, h3]
  exact ⟨h1, h2, h3, h4, h5⟩

/-- C4 witness: a concrete `mkstemp` name next to a concrete target. -/
theorem C4_witness :
    candidateFilter false (tmpPathOf "d/a.h5" "a1b2c3") = false :=
  (C4_temp_name_rejected_by_filter "d/a.h5" "a1b2c3" (by decide)).2.2.2.2

/-- C2 counterexample: when the watched file has vanished, every size read
raises; the handler's outcome is an uncaught probe exception — the error is
not recovered at job scope, because the stability loop sits outside the
`try/except` of `on_created`. This falsifies the claim that a failing size
read during polling is recovered at job scope. -/
theorem C2_counterexample :
    recoveredAtJobScope
      (on_created false "d/run.h5" 7 0 (fun _ => none) 5 false).outcome = false := by
  decide

/-- C2 (amended): if a size read raises while the stability loop polls an
accepted file, the exception propagates out of `on_created` uncaught — the
`try/except` wraps only `compress_and_replace` — so the error is not recovered
at job scope. -/
theorem C2_probe_error_escapes_handler (src_path : String) (now last_event_time : Int)
    (sizes : Nat → Option Nat) (fuel t : Nat) (compressRaises : Bool)
    (hf : candidateFilter false src_path = true)
    (hw : waitUntilStable sizes fuel 0 = ProbeOutcome.raised t) :
    (on_created false src_path now last_event_time sizes fuel compressRaises).outcome
      = JobOutcome.probeRaised t ∧
    recoveredAtJobScope
      (on_created false src_path now last_event_time sizes fuel compressRaises).outcome
      = false := by
  simp [on_created, hf, hw, recoveredAtJobScope]

/-- C2 witness: the vanished-file run of the amended theorem at a concrete
input. -/
theorem C2_witness :
    (on_created false "d/run.h5" 7 0 (fun _ => none) 5 false).outcome
      = JobOutcome.probeRaised 0 :=
  (C2_probe_error_escapes_handler "d/run.h5" 7 0 (fun _ => none) 5 0 false
    (by decide) (by decide)).1

/-- C5: compression is attempted (whether it then succeeds or raises) only
after the stability probe returned true — two consecutive size reads separated
by the wait interval were equal — and at every earlier trial the probe
returned false and the loop kept waiting. -/
theorem C5_stability_gates_compression (is_directory : Bool) (src_path : String)
    (now last_event_time : Int) (sizes : Nat → Option Nat) (fuel t : Nat)
    (compressRaises : Bool)
    (h : (on_created is_directory src_path now last_event_time sizes fuel compressRaises).outcome
          = JobOutcome.compressed t ∨
         (on_created is_directory src_path now last_event_time sizes fuel compressRaises).outcome
          = JobOutcome.failed t) :
    is_stable sizes t = some true ∧ ∀ m < t, is_stable sizes m = some false := by
  have hst : waitUntilStable sizes fuel 0 = ProbeOutcome.stable t := by
    by_cases hf : candidateFilter is_directory src_path = true
    · rcases hw : waitUntilStable sizes fuel 0 with t' | t' | _ <;>
        cases compressRaises <;>
          simp only [on_created, hf, if_true, hw] at h <;> simp_all
    · simp [on_created, hf] at h
  obtain ⟨_, h2, h3⟩ := waitUntilStable_stable_spec sizes fuel 0 t hst
  exact ⟨h2, fun m hm => h3 m (Nat.zero_le m) hm⟩

/-- C5 witness: with sizes 0,1,5,5,… the probe fails at trial 0 and succeeds
at trial 1, where compression then runs. -/
theorem C5_witness :
    is_stable (fun k => if k < 2 then some k else some 5) 1 = some true :=
  (C5_stability_gates_compression false "d/run.h5" 7 0
    (fun k => if k < 2 then some k else some 5) 3 1 false (Or.inl (by decide))).1

/-- C6: when `compress_and_replace` fails before the final rename — creating
the temp file, opening the source, or writing the temp — the entry at the
original path is exactly what it was before the run; writes go to the temp
path only. -/
theorem C6_original_untouched_before_rename
    (compression : Option String) (compression_level : Nat)
    (src_path rand : String) (fm : FailureModel) (fs : FS) (e : CompressError)
    (hne : tmpPathOf src_path rand ≠ src_path)
    (herr : (compress_and_replace compression compression_level src_path rand fm fs).error
        = some e)
    (hpre : e ≠ CompressError.publishError) :
    lookupFS (compress_and_replace compression compression_level src_path rand fm fs).fs
      src_path = lookupFS fs src_path := by
  have hsrcne : src_path ≠ tmpPathOf src_path rand := Ne.symm hne
  obtain ⟨m, o, w, r⟩ := fm
  cases m with
  | true => simp [compress_and_replace]
  | false =>
    cases hsrc : lookupFS fs src_path with
    | none =>
      simp only [compress_and_replace, Bool.false_eq_true, if_false, hsrc]
      exact (lookupFS_setFS_ne fs _ src_path [] hsrcne).trans hsrc
    | some srcFile =>
      cases o with
      | true =>
        simp only [compress_and_replace, Bool.false_eq_true, if_false, if_true, hsrc]
        exact (lookupFS_setFS_ne fs _ src_path [] hsrcne).trans hsrc
      | false =>
        cases w with
        | true =>
          simp only [compress_and_replace, Bool.false_eq_true, if_false, if_true, hsrc]
          exact (lookupFS_setFS_ne fs _ src_path [] hsrcne).trans hsrc
        | false =>
          cases r with
          | true =>
            exfalso
            simp only [compress_and_replace, Bool.false_eq_true, if_false, if_true,
              hsrc] at herr
            exact hpre (Option.some_inj.mp herr).symm
          | false =>
            exfalso
            simp only [compress_and_replace, Bool.false_eq_true, if_false, if_true,
              hsrc] at herr
            cases herr

/-- C6 witness: an unreadable source (read step raises) leaves the original
entry unchanged. -/
theorem C6_witness :
    lookupFS (compress_and_replace (some "gzip") 4 "d/a.h5" "x1" ⟨false, true, false, false⟩
        [("d/a.h5", [("g", H5Object.group)])]).fs "d/a.h5"
      = lookupFS [("d/a.h5", [("g", H5Object.group)])] "d/a.h5" :=
  C6_original_untouched_before_rename (some "gzip") 4 "d/a.h5" "x1"
    ⟨false, true, false, false⟩ [("d/a.h5", [("g", H5Object.group)])]
    CompressError.readError (by decide) (by decide) (by decide)

/-- C7: per-job errors are contained: in watch mode a raising
`compress_and_replace` is caught and the handler returns normally, and in
batch mode the list of files on which `compress_and_replace` is invoked does
not depend on which invocations raise. -/
theorem C7_per_job_errors_contained (is_directory : Bool) (src_path : String)
    (now last_event_time : Int) (sizes : Nat → Option Nat) (fuel t : Nat)
    (hst : waitUntilStable sizes fuel 0 = ProbeOutcome.stable t)
    (fails : String → Bool) (walk : List (String × String)) :
    recoveredAtJobScope
      (on_created is_directory src_path now last_event_time sizes fuel true).outcome = true ∧
    attemptedPaths (batchOnce fails walk) =
      attemptedPaths (batchOnce (fun _ => false) walk) := by
  refine ⟨?_, attemptedPaths_batchOnce_indep fails walk⟩
  by_cases hf : candidateFilter is_directory src_path = true
  · simp [on_created, hf, hst, recoveredAtJobScope]
  · simp [on_created, hf, recoveredAtJobScope]

/-- C7 witness: a raising compression on a stable file is caught; the handler
returns normally. -/
theorem C7_witness :
    recoveredAtJobScope
      (on_created false "d/run.h5" 7 0 (fun _ => some 5) 2 true).outcome = true :=
  (C7_per_job_errors_contained false "d/run.h5" 7 0 (fun _ => some 5) 2 0 (by decide)
    (fun _ => true) [("d", "b.h5")]).1

/-- C8: the watch loop signals shutdown exactly at the first tick whose elapsed
time since the last event strictly exceeds the idle threshold — and never when
no tick strictly exceeds it — and an accepted candidate sets the shared
timestamp to the dispatch-time clock value, resetting the idle clock. -/
theorem C8_idle_shutdown_iff (idle_timeout : Int) (lastOf : Int → Int) (ticks : List Int)
    (t : Int) (is_directory : Bool) (src_path : String) (now last_event_time : Int)
    (sizes : Nat → Option Nat) (fuel : Nat) (compressRaises : Bool) :
    (watchLoop idle_timeout lastOf ticks = some t →
      t - lastOf t > idle_timeout ∧
      ∃ pre post, ticks = pre ++ t :: post ∧
        ∀ u ∈ pre, ¬(u - lastOf u > idle_timeout)) ∧
    (watchLoop idle_timeout lastOf ticks = none →
      ∀ u ∈ ticks, ¬(u - lastOf u > idle_timeout)) ∧
    (on_created is_directory src_path now last_event_time sizes fuel compressRaises).last_event_time
      = (if candidateFilter is_directory src_path then now else last_event_time) := by
  refine ⟨?_, ?_, ?_⟩
  · induction ticks with
    | nil => intro h; cases h
    | cons u rest ih =>
      intro h
      rw [watchLoop] at h
      by_cases hc : idleCheck u (lastOf u) idle_timeout = true
      · rw [if_pos hc] at h
        cases h
        refine ⟨by simpa [idleCheck] using hc, [], rest, rfl, by simp⟩
      · rw [if_neg hc] at h
        obtain ⟨h1, pre, post, hpp, hpre⟩ := ih h
        refine ⟨h1, u :: pre, post, by simp [hpp], ?_⟩
        intro v hv
        rcases List.mem_cons.mp hv with rfl | hv
        · simpa [idleCheck] using hc
        · exact hpre v hv
  · induction ticks with
    | nil => intro _ u hu; cases hu
    | cons u rest ih =>
      intro h v hv
      rw [watchLoop] at h
      by_cases hc : idleCheck u (lastOf u) idle_timeout = true
      · rw [if_pos hc] at h; cases h
      · rw [if_neg hc] at h
        rcases List.mem_cons.mp hv with rfl | hv
        · simpa [idleCheck] using hc
        · exact ih h v hv
  · cases hf : candidateFilter is_directory src_path with
    | false => simp [on_created, hf]
    | true =>
      simp only [on_created, hf, if_true]
      cases hw : waitUntilStable sizes fuel 0 <;> cases compressRaises <;> simp [hw]

/-- C8 witness: with the timestamp cell stuck at 0 and threshold 5, the loop
shuts down at tick 10, whose idle time strictly exceeds the threshold. -/
theorem C8_witness : (10 : Int) - 0 > 5 :=
  ((C8_idle_shutdown_iff 5 (fun _ => 0) [3, 10] 10 false "d/run.h5" 7 0
    (fun _ => some 5) 2 false).1 (by decide)).1

/-- C9 counterexample: in batch mode a matching file is handed straight to
`compress_and_replace` — the trace is exactly the invocation and contains no
stability poll, contradicting the claim that the pipeline's first step polls
the probe until stable. -/
theorem C9_counterexample :
    batchOnce (fun _ => false) [("d", "a.h5")]
        = [BatchAction.attempted (joinPath "d" "a.h5")] ∧
    BatchAction.probed (joinPath "d" "a.h5") ∉ batchOnce (fun _ => false) [("d", "a.h5")] := by
  decide

/-- C9 (amended): in one-shot batch mode every matching file (".h5" extension,
not temp-prefixed) found in the walk has `compress_and_replace` invoked on it,
directly, with no stability probing anywhere in the run. -/
theorem C9_batch_without_probe (fails : String → Bool) (walk : List (String × String)) :
    (∀ p, BatchAction.probed p ∉ batchOnce fails walk) ∧
    ∀ root fname, (root, fname) ∈ walk →
      pyEndsWith fname ".h5" = true → pyStartsWith fname "tmp" = false →
      BatchAction.attempted (joinPath root fname) ∈ batchOnce fails walk := by
  constructor
  · intro p hp
    rw [batchOnce, List.mem_flatMap] at hp
    obtain ⟨rf, _, hmem⟩ := hp
    exact probed_not_mem_batchStep fails rf.1 rf.2 p hmem
  · intro root fname hmem hE hS
    rw [batchOnce, List.mem_flatMap]
    refine ⟨(root, fname), hmem, ?_⟩
    rw [batchStep]
    have hcond : (!pyEndsWith fname ".h5" || pyStartsWith fname "tmp") = false := by
      rw [hE, hS]
      rfl
    simp only [hcond, Bool.false_eq_true, if_false]
    by_cases hfa : fails (joinPath root fname) = true <;> simp [hfa]

/-- C9 witness: a matching file of a concrete walk gets a direct
`compress_and_replace` invocation even when that invocation raises. -/
theorem C9_witness :
    BatchAction.attempted (joinPath "d" "b.h5") ∈ batchOnce (fun _ => true) [("d", "b.h5")] :=
  (C9_batch_without_probe (fun _ => true) [("d", "b.h5")]).2 "d" "b.h5" (by decide) (by decide)
    (by decide)

/-- C10: the temp file is created (mkstemp) before the source container is
opened and no failure path deletes it: whenever any later step fails — opening
or reading the source, writing the temp, or the final rename — the temp file
is still present afterwards, not only in the publish-error case. -/
theorem C10_temp_file_left_on_failure
    (compression : Option String) (compression_level : Nat)
    (src_path rand : String) (fm : FailureModel) (fs : FS) (e : CompressError)
    (herr : (compress_and_replace compression compression_level src_path rand fm fs).error
        = some e)
    (hm : e ≠ CompressError.mkstempError) :
    (lookupFS (compress_and_replace compression compression_level src_path rand fm fs).fs
      (tmpPathOf src_path rand)).isSome = true := by
  obtain ⟨m, o, w, r⟩ := fm
  cases m with
  | true =>
    exfalso
    simp [compress_and_replace] at herr
    exact hm herr.symm
  | false =>
    cases hsrc : lookupFS fs src_path with
    | none =>
      simp only [compress_and_replace, Bool.false_eq_true, if_false, hsrc]
      rw [lookupFS_setFS_self]
      rfl
    | some srcFile =>
      cases o with
      | true =>
        simp only [compress_and_replace, Bool.false_eq_true, if_false, if_true, hsrc]
        rw [lookupFS_setFS_self]
        rfl
      | false =>
        cases w with
        | true =>
          simp only [compress_and_replace, Bool.false_eq_true, if_false, if_true, hsrc]
          rw [lookupFS_setFS_self]
          rfl
        | false =>
          cases r with
          | true =>
            simp only [compress_and_replace, Bool.false_eq_true, if_false, if_true, hsrc]
            rw [lookupFS_setFS_self]
            rfl
          | false =>
            exfalso
            simp only [compress_and_replace, Bool.false_eq_true, if_false, hsrc] at herr
            cases herr

/-- C10 witness: the source is missing, so the read-open raises after the temp
file was created; the temp file is left on disk. -/
theorem C10_witness :
    (lookupFS (compress_and_replace (some "gzip") 4 "d/a.h5" "x9" noFailures []).fs
      (tmpPathOf "d/a.h5" "x9")).isSome = true :=
  C10_temp_file_left_on_failure (some "gzip") 4 "d/a.h5" "x9" noFailures []
    CompressError.readError (by decide) (by decide)

end RayxCompress
